import Mathlib

/-!
Verification development for the `synaptic` per-user memory store
(TypeScript sources under `src/`).  The SQLite-backed store
(`src/storage/sqlite.ts`, class `ContextIndex`), the maintenance pass
(`runMaintenance` / `consolidate`) and the transcript scanner
(`src/storage/transcript.ts`, `src/hooks/stop.ts`) are shallowly embedded:

* JavaScript strings are Lean `String`s; where the code joins and splits
  tag lists with the separator `", "` the operations are modelled
  character-exactly on `List Char`.
* SQLite tables are lists of rows.  The entries table is `List Row` in
  rowid order; `vec_entries` is an association list from rowid to vector.
  A fresh rowid is `max existing rowid + 1`, which is SQLite's behaviour
  for these tables (verified against SQLite: `INSERT OR REPLACE` allocates
  the fresh rowid before deleting the conflicting row, and an `UPDATE`
  counts every row matched by its `WHERE` clause in `changes`, whether or
  not the stored value changed).
* External collaborators are parameters: the FTS5 `MATCH`/BM25 engine, the
  `date('now', ...)` clock, `Date.now()`, `new Date(string).getTime()` and
  JSON parsing arrive through an environment record, and the embedding
  model's vectors are exact rationals.  `sqlite-vec` distances are
  modelled as squared L2 distances (the ordering, which is all the code
  consumes in `hybridSearch`, is the same as for float L2 distances).
* JavaScript float arithmetic in scores is modelled as exact real
  arithmetic; `Math.pow` is real exponentiation (`rpow`).
-/

namespace Synaptic

/-! ### JavaScript strings: the `", "` tag separator

`ContextIndex.insert` stores `entry.tags.join(", ")` and each reader maps
the column back through `.split(", ").filter(Boolean)`.  The two are
modelled character-exactly on `List Char`. -/

/-- JavaScript `String.prototype.includes(", ")` on character lists: does
the separator `", "` occur anywhere? -/
def hasSep : List Char → Bool
  | [] => false
  | [_] => false
  | c₁ :: c₂ :: rest => (c₁ = ',' && c₂ = ' ') || hasSep (c₂ :: rest)

/-- JavaScript `Array.prototype.join(", ")` on character lists. -/
def joinCS : List (List Char) → List Char
  | [] => []
  | [t] => t
  | t :: t' :: ts => t ++ ',' :: ' ' :: joinCS (t' :: ts)

/-- JavaScript `String.prototype.split(", ")` on character lists: greedy
left-to-right scan for the two-character separator. -/
def splitCS : List Char → List (List Char)
  | [] => [[]]
  | [c] => [[c]]
  | c₁ :: c₂ :: rest =>
    if c₁ = ',' ∧ c₂ = ' ' then [] :: splitCS rest
    else
      match splitCS (c₂ :: rest) with
      | [] => [[c₁]]
      | p :: ps => (c₁ :: p) :: ps

/-- `entry.tags.join(", ")` as stored in the `tags` column. -/
def jsJoinTags (tags : List String) : String :=
  String.mk (joinCS (tags.map String.toList))

/-- `row.tags.split(", ").filter(Boolean)` as read back from the column. -/
def jsSplitTags (s : String) : List String :=
  ((splitCS s.toList).map String.mk).filter (fun t => t ≠ "")

theorem hasSep_cons_cons (c₁ c₂ : Char) (rest : List Char)
    (h : hasSep (c₁ :: c₂ :: rest) = false) :
    ¬(c₁ = ',' ∧ c₂ = ' ') ∧ hasSep (c₂ :: rest) = false := by
  simp only [hasSep, Bool.or_eq_false_iff, Bool.and_eq_false_iff] at h
  refine ⟨?_, h.2⟩
  rintro ⟨h1, h2⟩
  rcases h.1 with h' | h' <;> simp [h1, h2] at h'

theorem splitCS_ne_nil (s : List Char) : splitCS s ≠ [] := by
  induction s using splitCS.induct with
  | case1 => simp [splitCS]
  | case2 c => simp [splitCS]
  | case3 c₁ c₂ rest h ih => simp [splitCS, h]
  | case4 c₁ c₂ rest h heq ih => exact absurd heq ih
  | case5 c₁ c₂ rest h p ps heq ih => simp [splitCS, h, heq]

theorem splitCS_sep_free (t : List Char) (h : hasSep t = false) :
    splitCS t = [t] := by
  induction t using splitCS.induct with
  | case1 => rfl
  | case2 c => rfl
  | case3 c₁ c₂ rest hsep ih =>
    exact absurd hsep (hasSep_cons_cons c₁ c₂ rest h).1
  | case4 c₁ c₂ rest hsep heq ih => exact absurd heq (splitCS_ne_nil _)
  | case5 c₁ c₂ rest hsep p ps heq ih =>
    have h' := (hasSep_cons_cons c₁ c₂ rest h).2
    rw [ih h'] at heq
    injection heq with h1 h2
    show splitCS (c₁ :: c₂ :: rest) = [c₁ :: c₂ :: rest]
    simp only [splitCS]
    rw [if_neg hsep, ih h']

theorem splitCS_sep_head (rest : List Char) :
    splitCS (',' :: ' ' :: rest) = [] :: splitCS rest := by
  simp [splitCS]

theorem splitCS_append_sep (t rest : List Char) (h : hasSep t = false) :
    splitCS (t ++ ',' :: ' ' :: rest) = t :: splitCS rest := by
  induction t with
  | nil => simpa using splitCS_sep_head rest
  | cons c t' ih =>
    cases t' with
    | nil =>
      show splitCS (c :: ',' :: ' ' :: rest) = [c] :: splitCS rest
      simp [splitCS]
    | cons c₂ rest' =>
      obtain ⟨hne, hsub⟩ := hasSep_cons_cons c c₂ rest' h
      have ihr := ih hsub
      show splitCS (c :: c₂ :: (rest' ++ ',' :: ' ' :: rest)) =
        (c :: c₂ :: rest') :: splitCS rest
      simp only [splitCS]
      rw [if_neg hne]
      rw [show c₂ :: (rest' ++ ',' :: ' ' :: rest) =
        (c₂ :: rest') ++ ',' :: ' ' :: rest from rfl, ihr]

theorem splitCS_joinCS (L : List (List Char)) (hne : L ≠ [])
    (h : ∀ t ∈ L, hasSep t = false) : splitCS (joinCS L) = L := by
  induction L with
  | nil => exact absurd rfl hne
  | cons t ts ih =>
    cases ts with
    | nil =>
      simp only [joinCS]
      exact splitCS_sep_free t (h t (by simp))
    | cons t' ts' =>
      have h1 : hasSep t = false := h t (by simp)
      have h2 : ∀ u ∈ t' :: ts', hasSep u = false := by
        intro u hu; exact h u (by simp [hu])
      simp only [joinCS]
      rw [splitCS_append_sep t (joinCS (t' :: ts')) h1]
      rw [ih (by simp) h2]

theorem splitCS_head_shape (c : Char) (r : List Char) (p : List Char)
    (ps : List (List Char)) (heq : splitCS (c :: r) = p :: ps) :
    p = [] ∨ ∃ p', p = c :: p' := by
  cases r with
  | nil =>
    simp only [splitCS] at heq
    injection heq with h1 h2
    exact Or.inr ⟨[], h1.symm⟩
  | cons c₂ rest =>
    by_cases hc : c = ',' ∧ c₂ = ' '
    · rw [show (c : Char) :: c₂ :: rest = ',' :: ' ' :: rest by
        rw [hc.1, hc.2], splitCS_sep_head rest] at heq
      injection heq with h1 h2
      exact Or.inl h1.symm
    · simp only [splitCS] at heq
      rw [if_neg hc] at heq
      cases hs : splitCS (c₂ :: rest) with
      | nil => exact absurd hs (splitCS_ne_nil _)
      | cons q qs =>
        rw [hs] at heq
        injection heq with h1 h2
        exact Or.inr ⟨q, h1.symm⟩

theorem splitCS_pieces_sep_free (s : List Char) :
    ∀ p ∈ splitCS s, hasSep p = false := by
  induction s using splitCS.induct with
  | case1 => intro p hp; simp [splitCS] at hp; simp [hp, hasSep]
  | case2 c => intro p hp; simp [splitCS] at hp; simp [hp, hasSep]
  | case3 c₁ c₂ rest hsep ih =>
    intro p hp
    rw [show (c₁ : Char) :: c₂ :: rest = ',' :: ' ' :: rest by
      rw [hsep.1, hsep.2], splitCS_sep_head rest] at hp
    rcases List.mem_cons.mp hp with h | h
    · simp [h, hasSep]
    · exact ih p h
  | case4 c₁ c₂ rest hsep heq ih => exact absurd heq (splitCS_ne_nil _)
  | case5 c₁ c₂ rest hsep p ps heq ih =>
    intro q hq
    simp only [splitCS] at hq
    rw [if_neg hsep, heq] at hq
    rcases List.mem_cons.mp hq with h | h
    · subst h
      have hpfree : hasSep p = false := ih p (by rw [heq]; simp)
      rcases splitCS_head_shape c₂ rest p ps heq with hnil | ⟨p', hp'⟩
      · subst hnil; simp [hasSep]
      · subst hp'
        simp only [hasSep, Bool.or_eq_false_iff]
        refine ⟨?_, hpfree⟩
        rw [Bool.and_eq_false_iff]
        rcases Decidable.em (c₁ = ',') with h1 | h1
        · right
          rcases Decidable.em (c₂ = ' ') with h2 | h2
          · exact absurd ⟨h1, h2⟩ hsep
          · simp [h2]
        · left; simp [h1]
    · exact ih q (by rw [heq]; simp [h])

/-- Round trip at the `String` level, part (a): tags that are non-empty and
avoid the `", "` separator survive `join` then `split`+`filter` exactly. -/
theorem jsSplitTags_jsJoinTags (tags : List String)
    (h : ∀ t ∈ tags, t ≠ "" ∧ hasSep t.toList = false) :
    jsSplitTags (jsJoinTags tags) = tags := by
  cases htags : tags with
  | nil => rfl
  | cons t ts =>
    subst htags
    have hmk : ∀ u : String, String.mk u.toList = u := by
      intro u; cases u; rfl
    have hsplit : splitCS (joinCS ((t :: ts).map String.toList)) =
        (t :: ts).map String.toList := by
      refine splitCS_joinCS _ (by simp) ?_
      intro u hu
      rcases List.mem_map.mp hu with ⟨v, hv, huv⟩
      rw [← huv]
      exact (h v hv).2
    unfold jsSplitTags jsJoinTags
    rw [show (String.mk (joinCS ((t :: ts).map String.toList))).toList =
      joinCS ((t :: ts).map String.toList) from rfl, hsplit]
    rw [show ((t :: ts).map String.toList).map String.mk = t :: ts by
      rw [List.map_map]
      refine List.map_congr_left ?_ |>.trans (List.map_id _)
      intro a _; exact hmk a]
    rw [List.filter_eq_self.mpr ?_]
    intro a ha
    simpa using (h a ha).1

/-- Round trip at the `String` level, part (b): a tag containing `", "` is
split apart, so the read-back list can never equal the original. -/
theorem jsSplitTags_jsJoinTags_ne (tags : List String)
    (h : ∃ t ∈ tags, hasSep t.toList = true) :
    jsSplitTags (jsJoinTags tags) ≠ tags := by
  obtain ⟨t, ht, hsep⟩ := h
  intro heq
  have hmem : t ∈ jsSplitTags (jsJoinTags tags) := by rw [heq]; exact ht
  unfold jsSplitTags at hmem
  have hmem2 := List.mem_filter.mp hmem |>.1
  rcases List.mem_map.mp hmem2 with ⟨p, hp, hpt⟩
  have hfree := splitCS_pieces_sep_free _ p hp
  rw [← hpt] at hsep
  rw [show (String.mk p).toList = p from rfl] at hsep
  rw [hfree] at hsep
  exact Bool.false_ne_true hsep

end Synaptic

namespace Synaptic

/-! ### String comparison

SQLite compares `TEXT` values bytewise (memcmp on UTF-8); for the ASCII
dates (`YYYY-MM-DD`) and times (`HH:MM`) that the code orders by, this is
the same as lexicographic comparison of code points, which is what we
model. -/

/-- Lexicographic strict comparison of character lists by code point. -/
def charListLt : List Char → List Char → Bool
  | [], [] => false
  | [], _ :: _ => true
  | _ :: _, [] => false
  | a :: as, b :: bs =>
    if a.val < b.val then true
    else if b.val < a.val then false
    else charListLt as bs

/-- Strict `<` on strings (SQLite `TEXT` comparison for ASCII data). -/
def jsStrLt (a b : String) : Bool := charListLt a.toList b.toList

/-! ### The data model

`Row` is a row of the `entries` table after all schema migrations
(`src/storage/sqlite.ts`, `init`/`migrate`).  The `tags` column stores the
joined string.  `ContextEntry` is the TypeScript `ContextEntry` object —
the input of `insert` and the output of the row-mapping used by `search`,
`getByRowids` and `list` (optional fields are `Option`; booleans default
to `false`, matching JavaScript truthiness of `undefined`). -/

structure Row where
  rowid : Int
  id : String
  date : String
  time : String
  type : String
  tags : String
  content : String
  sourceFile : String
  tier : String
  accessCount : Nat
  lastAccessed : Option String
  pinned : Bool
  archived : Bool
  label : Option String
  project : Option String
  sessionId : Option String
  agentId : Option String
  deriving DecidableEq, Repr

structure ContextEntry where
  id : String
  date : String
  time : String
  type : String
  tags : List String
  content : String
  sourceFile : String
  tier : Option String := none
  accessCount : Option Nat := none
  lastAccessed : Option String := none
  pinned : Bool := false
  archived : Bool := false
  label : Option String := none
  project : Option String := none
  sessionId : Option String := none
  agentId : Option String := none
  deriving DecidableEq, Repr

/-- The row→object mapping shared by `search`, `getByRowids` and `list`
(`label` is not selected there, so it is absent from the object). -/
def rowToEntry (r : Row) : ContextEntry where
  id := r.id
  date := r.date
  time := r.time
  type := r.type
  tags := jsSplitTags r.tags
  content := r.content
  sourceFile := r.sourceFile
  tier := some r.tier
  accessCount := some r.accessCount
  lastAccessed := r.lastAccessed
  pinned := r.pinned
  archived := r.archived

/-- The store: the `entries` table in rowid order plus the `vec_entries`
virtual table as an association list rowid ↦ embedding.  (The FTS index is
not materialised: the external FTS5 engine is a parameter of `search`.) -/
structure Store where
  rows : List Row := []
  vecs : List (Int × List ℚ) := []
  deriving DecidableEq, Repr

/-- External collaborators of the store: the FTS5 `MATCH`/BM25 ranking
(`fts q` is the rowid list for `MATCH q ORDER BY rank`), the SQL clock
(`cutoff n` is `date('now', '-n days')`, `today` is
`new Date().toISOString().slice(0,10)`), and the JavaScript date
primitives (`todayMs` is `Date.now()`, `dateMs s` is
`new Date(s).getTime()`). -/
structure DbEnv where
  fts : String → List Int
  cutoff : Nat → String
  today : String
  todayMs : Int
  dateMs : String → Int

/-- Options record of `search`/`hybridSearch` (the TypeScript `opts`). -/
structure SearchOpts where
  type : Option String := none
  days : Option Nat := none
  limit : Option Nat := none
  tier : Option String := none
  includeArchived : Bool := false
  deriving DecidableEq, Repr

namespace ContextIndex

/-- Largest rowid present in the `entries` table (0 when empty).  SQLite
assigns `maxRowid + 1` to a fresh row of these tables. -/
def maxRowid (s : Store) : Int :=
  s.rows.foldr (fun r m => max r.rowid m) 0

theorem rowid_le_foldr (r : Row) (l : List Row) (h : r ∈ l) :
    r.rowid ≤ l.foldr (fun r m => max r.rowid m) 0 := by
  induction l with
  | nil => cases h
  | cons a l ih =>
    rcases List.mem_cons.mp h with h' | h'
    · subst h'; simp [le_max_iff]
    · simp only [List.foldr_cons, le_max_iff]
      exact Or.inr (ih h')

theorem rowid_le_maxRowid (s : Store) (r : Row) (h : r ∈ s.rows) :
    r.rowid ≤ maxRowid s :=
  rowid_le_foldr r s.rows h

/-- The row written by `ContextIndex.insert` (the TypeScript `??`
defaults applied, the tags joined with `", "`). -/
def mkRow (rid : Int) (e : ContextEntry) : Row where
  rowid := rid
  id := e.id
  date := e.date
  time := e.time
  type := e.type
  tags := jsJoinTags e.tags
  content := e.content
  sourceFile := e.sourceFile
  tier := e.tier.getD "working"
  accessCount := e.accessCount.getD 0
  lastAccessed := e.lastAccessed
  pinned := e.pinned
  archived := e.archived
  label := e.label
  project := e.project
  sessionId := e.sessionId
  agentId := e.agentId

/-- `ContextIndex.insert`: `INSERT OR REPLACE INTO entries ...` keyed by
`id`, returning `last_insert_rowid()`.  The replacement semantics of
SQLite delete any existing row with the same `id` while the fresh row
receives rowid `maxRowid + 1`; `vec_entries` is not touched. -/
def insert (s : Store) (e : ContextEntry) : Int × Store :=
  let rid := maxRowid s + 1
  (rid, { s with rows := s.rows.filter (fun r => r.id != e.id) ++ [mkRow rid e] })

/-- `ContextIndex.insertVec`: `INSERT INTO vec_entries(rowid, embedding)`. -/
def insertVec (s : Store) (rid : Int) (v : List ℚ) : Store :=
  { s with vecs := s.vecs ++ [(rid, v)] }

/-- `ContextIndex.getRowidsByIds`: per id, `SELECT rowid FROM entries
WHERE id = ?`, or `-1` when absent. -/
def getRowidsByIds (s : Store) (ids : List String) : List Int :=
  ids.map (fun i =>
    match s.rows.find? (fun r => r.id == i) with
    | some r => r.rowid
    | none => -1)

/-- `ContextIndex.getByRowids`: `SELECT ... WHERE rowid IN (...)` (rows
come back in table order) followed by the row→object mapping. -/
def getByRowids (s : Store) (rowids : List Int) : List ContextEntry :=
  (s.rows.filter (fun r => rowids.contains r.rowid)).map rowToEntry

/-- The `e.type = ?` condition; JavaScript skips it for a falsy
(`undefined` or empty) `opts.type`. -/
def typeCond (t? : Option String) (r : Row) : Bool :=
  match t? with
  | none => true
  | some t => if t = "" then true else r.type == t

/-- The `e.date >= date('now', '-' || ? || ' days')` condition; JavaScript
skips it for a falsy (`undefined` or `0`) `opts.days`. -/
def dateCond (env : DbEnv) (days? : Option Nat) (r : Row) : Bool :=
  match days? with
  | none => true
  | some n => if n = 0 then true else !jsStrLt r.date (env.cutoff n)

/-- The `archived = 0` condition applied unless `includeArchived`. -/
def archivedCond (includeArchived : Bool) (r : Row) : Bool :=
  includeArchived || !r.archived

/-- `ContextIndex.search`: the FTS5 `MATCH` join, filtered by the
requested conditions, ordered by BM25 rank (the order of `env.fts`),
limited, and mapped to objects. -/
def search (env : DbEnv) (s : Store) (query : String) (opts : SearchOpts) :
    List ContextEntry :=
  let limit := opts.limit.getD 20
  (((env.fts query).filterMap
      (fun rid => s.rows.find? (fun r => r.rowid == rid))).filter
    (fun r => typeCond opts.type r && dateCond env opts.days r &&
      archivedCond opts.includeArchived r)).take limit |>.map rowToEntry

/-- Squared L2 distance between two rational vectors.  `sqlite-vec`
returns float `sqrt` of this; only the ordering is consumed by the code we
verify, and that ordering is identical. -/
def dist2 (a b : List ℚ) : ℚ :=
  ((List.zipWith (fun x y => (x - y) * (x - y)) a b)).sum

/-- `ContextIndex.searchVec`: `SELECT rowid, distance FROM vec_entries
WHERE embedding MATCH ? ORDER BY distance LIMIT ?`. -/
def searchVec (s : Store) (emb : List ℚ) (limit : Nat) :
    List (Int × ℚ) :=
  (List.insertionSort (fun a b : Int × ℚ => a.2 ≤ b.2)
    (s.vecs.map (fun p => (p.1, dist2 emb p.2)))).take limit

/-- `ContextIndex.list`: filter then `ORDER BY date DESC, time DESC`,
mapped to objects. -/
def list (env : DbEnv) (s : Store) (opts : SearchOpts) : List ContextEntry :=
  (List.insertionSort
    (fun a b : Row =>
      (jsStrLt b.date a.date || (b.date == a.date && !jsStrLt a.time b.time)) = true)
    (s.rows.filter
      (fun r => typeCond opts.type r && dateCond env opts.days r &&
        archivedCond opts.includeArchived r))).map rowToEntry

/-- The `WHERE id IN (...) AND pinned = 0` clause of `archiveEntries`. -/
def archiveHit (ids : List String) (r : Row) : Bool :=
  ids.contains r.id && !r.pinned

/-- `ContextIndex.archiveEntries`: `UPDATE entries SET archived = 1 WHERE
id IN (...) AND pinned = 0`, returning SQLite `changes` — the number of
rows matched by the `WHERE` clause (SQLite counts a matched row even when
the stored value is unchanged). -/
def archiveEntries (s : Store) (ids : List String) : Nat × Store :=
  ((s.rows.filter (archiveHit ids)).length,
   { s with rows := s.rows.map (fun r =>
      if archiveHit ids r then { r with archived := true } else r) })

/-- `ContextIndex.bumpAccess`: `access_count += 1`, `last_accessed = today`
for each id. -/
def bumpAccess (env : DbEnv) (s : Store) (ids : List String) : Store :=
  { s with rows := s.rows.map (fun r =>
      if ids.contains r.id then
        { r with accessCount := r.accessCount + 1, lastAccessed := some env.today }
      else r) }

end ContextIndex

end Synaptic

namespace Synaptic

namespace ContextIndex

/-! ### Hybrid scoring (`ContextIndex.hybridSearch`) -/

/-- The `tierWeight` closure: `longterm → 1.5`, `ephemeral → 0.5`,
default `1.0` (also for an undefined tier). -/
def tierWeight : Option String → ℚ
  | some "longterm" => 3 / 2
  | some "ephemeral" => 1 / 2
  | _ => 1

/-- The `confidenceBoost` closure, indexed by `access_count`:
`0 → 0.7`, `1..2 → 1.0`, `3..5 → 1.2`, `≥6 → 1.4`. -/
def confidenceBoost (ac : ℕ) : ℚ :=
  if ac = 0 then 7 / 10
  else if ac ≤ 2 then 1
  else if ac ≤ 5 then 6 / 5
  else 7 / 5

/-- `(today.getTime() - entryDate.getTime()) / (1000 * 60 * 60 * 24)`:
the entry's age in days as an exact rational (negative for a date in the
future; no flooring happens in the code). -/
def ageDaysMs (todayMs dateMs : Int) : ℚ :=
  ((todayMs - dateMs : Int) : ℚ) / 86400000

/-- `Math.pow(0.5, ageDays / 30)`, the temporal decay factor; the power is
real exponentiation. -/
noncomputable def hsDecay (ageDays : ℚ) : ℝ :=
  (1 / 2 : ℝ) ^ ((ageDays : ℝ) / 30)

/-- One entry's final score in `hybridSearch`:
`rrf * decay * tierWeight(entry.tier) * confidenceBoost(entry.accessCount ?? 0)`. -/
noncomputable def entryScore (rrf ageDays : ℚ) (tier : Option String) (ac : ℕ) : ℝ :=
  (rrf : ℝ) * hsDecay ageDays * (tierWeight tier : ℝ) * (confidenceBoost ac : ℝ)

/-- `scores.set(rowid, (scores.get(rowid) ?? 0) + v)` on a JavaScript
`Map` held as an association list in insertion order. -/
def updScore (m : List (Int × ℚ)) (k : Int) (v : ℚ) : List (Int × ℚ) :=
  if m.any (fun p => p.1 == k) then
    m.map (fun p => if p.1 == k then (p.1, p.2 + v) else p)
  else m ++ [(k, v)]

/-- The RRF accumulation loop: for the element of rank `r` (0-based) add
`1 / (K + r + 1)` with `K = 60`. -/
def rrfFold (m : List (Int × ℚ)) (rowids : List Int) : List (Int × ℚ) :=
  (rowids.enum).foldl (fun acc p => updScore acc p.2 (1 / (60 + (p.1 : ℚ) + 1))) m

/-- `Map.get` on the association-list model. -/
def lookupAssoc {α : Type} (m : List (Int × α)) (k : Int) : Option α :=
  (m.find? (fun p => p.1 == k)).map (fun p => p.2)

/-- `Array.prototype.map` under an option: `none` models the `TypeError`
thrown when `entryMap.get(rowid)!` yields `undefined` (a vector whose
rowid has no entries row). -/
def mapOpt {α β : Type} (f : α → Option β) : List α → Option (List β)
  | [] => some []
  | a :: l =>
    match f a, mapOpt f l with
    | some b, some bs => some (b :: bs)
    | _, _ => none

/-- The final filter of `hybridSearch` — step 5 of the code: drop
archived entries unless `includeArchived`, drop a tier mismatch when a
(truthy) tier filter is set.  Nothing else is checked here. -/
def hybridKeep (opts : SearchOpts) (se : ContextEntry × ℝ) : Bool :=
  !(!opts.includeArchived && se.1.archived) &&
  (match opts.tier with
   | none => true
   | some t => if t = "" then true else se.1.tier == some t)

/-- The tail of `hybridSearch` after scoring: filter, sort by score
descending (JavaScript's stable sort), take `limit`, strip the scores,
and bump access on the returned ids. -/
noncomputable def hybridPost (env : DbEnv) (s : Store) (opts : SearchOpts)
    (scoredL : List (ContextEntry × ℝ)) : List ContextEntry × Store :=
  let limit := opts.limit.getD 20
  let filtered := scoredL.filter (hybridKeep opts)
  let sorted := List.insertionSort
    (fun a b : ContextEntry × ℝ => b.2 ≤ a.2) filtered
  let result := (sorted.take limit).map (fun se => se.1)
  (result, bumpAccess env s (result.map (fun e => e.id)))

/-- `ContextIndex.hybridSearch`: BM25 candidates, vector candidates, RRF
merge with `K = 60`, temporal decay / tier weight / confidence scoring,
then `hybridPost` (the final filter checks archived and tier only — the
comparison with the spec is the subject of the claims).  The scoring step
returns `none` when some merged rowid has no entries row
(`entryMap.get(rowid)!` would be `undefined` and the code would throw). -/
noncomputable def hybridSearch (env : DbEnv) (s : Store) (query : String)
    (emb : List ℚ) (opts : SearchOpts) : Option (List ContextEntry × Store) :=
  let limit := opts.limit.getD 20
  let candidateLimit := limit * 3
  let bm25Results := search env s query
    { type := opts.type, days := opts.days, limit := some candidateLimit,
      includeArchived := opts.includeArchived }
  let vecResults := searchVec s emb candidateLimit
  let bm25Rowids := getRowidsByIds s (bm25Results.map (fun e => e.id))
  let scores := rrfFold (rrfFold [] bm25Rowids) (vecResults.map (fun p => p.1))
  let allRowids := scores.map (fun p => p.1)
  let entries := getByRowids s allRowids
  let rowidLookup := getRowidsByIds s (entries.map (fun e => e.id))
  let entryMap := rowidLookup.zip entries
  match mapOpt (fun rid =>
      (lookupAssoc entryMap rid).map (fun e =>
        (e, entryScore ((lookupAssoc scores rid).getD 0)
          (ageDaysMs env.todayMs (env.dateMs e.date))
          e.tier (e.accessCount.getD 0)))) allRowids with
  | none => none
  | some scoredL => some (hybridPost env s opts scoredL)

/-! ### Maintenance passes (`decayEphemeral` .. `promoteFrequent`) -/

/-- `WHERE` clause of `decayEphemeral`: unpinned, unarchived ephemeral
rows past their access-aware window (3 / 7 / 14 days on `date`). -/
def decayCond (env : DbEnv) (r : Row) : Bool :=
  r.tier == "ephemeral" && !r.pinned && !r.archived &&
  ((r.accessCount == 0 && jsStrLt r.date (env.cutoff 3)) ||
   (decide (1 ≤ r.accessCount) && decide (r.accessCount ≤ 2) &&
     jsStrLt r.date (env.cutoff 7)) ||
   (decide (3 ≤ r.accessCount) && jsStrLt r.date (env.cutoff 14)))

/-- `ContextIndex.decayEphemeral`: archive matching rows, return `changes`. -/
def decayEphemeral (env : DbEnv) (s : Store) : ℕ × Store :=
  ((s.rows.filter (decayCond env)).length,
   { s with rows := s.rows.map (fun r =>
      if decayCond env r then { r with archived := true } else r) })

/-- `WHERE` clause of `demoteIdle`: unpinned, unarchived working rows idle
past their access-aware window (15 / 30 / 60 days on
`COALESCE(last_accessed, date)`). -/
def demoteCond (env : DbEnv) (r : Row) : Bool :=
  r.tier == "working" && !r.pinned && !r.archived &&
  ((r.accessCount == 0 && jsStrLt (r.lastAccessed.getD r.date) (env.cutoff 15)) ||
   (decide (1 ≤ r.accessCount) && decide (r.accessCount ≤ 2) &&
     jsStrLt (r.lastAccessed.getD r.date) (env.cutoff 30)) ||
   (decide (3 ≤ r.accessCount) && jsStrLt (r.lastAccessed.getD r.date) (env.cutoff 60)))

/-- `ContextIndex.demoteIdle`: demote matching rows to `ephemeral`. -/
def demoteIdle (env : DbEnv) (s : Store) : ℕ × Store :=
  ((s.rows.filter (demoteCond env)).length,
   { s with rows := s.rows.map (fun r =>
      if demoteCond env r then { r with tier := "ephemeral" } else r) })

/-- `WHERE` clause of `promoteStable`: unarchived working decisions and
insights older than 7 days.  (No `pinned` condition appears in the SQL.) -/
def promoteStableCond (env : DbEnv) (r : Row) : Bool :=
  r.tier == "working" && !r.archived &&
  (r.type == "decision" || r.type == "insight") &&
  jsStrLt r.date (env.cutoff 7)

/-- `ContextIndex.promoteStable`: promote matching rows to `longterm`. -/
def promoteStable (env : DbEnv) (s : Store) : ℕ × Store :=
  ((s.rows.filter (promoteStableCond env)).length,
   { s with rows := s.rows.map (fun r =>
      if promoteStableCond env r then { r with tier := "longterm" } else r) })

/-- `WHERE` clause of `promoteFrequent`: unarchived ephemeral rows with
`access_count >= 3`.  (No `pinned` condition appears in the SQL.) -/
def promoteFrequentCond (r : Row) : Bool :=
  r.tier == "ephemeral" && !r.archived && decide (3 ≤ r.accessCount)

/-- `ContextIndex.promoteFrequent`: promote matching rows to `working`. -/
def promoteFrequent (s : Store) : ℕ × Store :=
  ((s.rows.filter promoteFrequentCond).length,
   { s with rows := s.rows.map (fun r =>
      if promoteFrequentCond r then { r with tier := "working" } else r) })

/-! ### Rules (`saveRule`, `listRules`, `deleteRule`) -/

/-- The `type = 'rule' AND label = ?` lookup predicate shared by
`saveRule` and `deleteRule`. -/
def rulePred (label : String) (r : Row) : Bool :=
  r.type == "rule" && r.label == some label

/-- The rule row inserted by `saveRule`: `type='rule'`, empty tags,
`source_file='rule'`, `tier='longterm'`, `access_count=0`, pinned, not
archived, labelled. -/
def mkRuleRow (rid : Int) (fresh date time label content : String) : Row where
  rowid := rid
  id := fresh
  date := date
  time := time
  type := "rule"
  tags := ""
  content := content
  sourceFile := "rule"
  tier := "longterm"
  accessCount := 0
  lastAccessed := none
  pinned := true
  archived := false
  label := some label
  project := none
  sessionId := none
  agentId := none

/-- `ContextIndex.saveRule`: find the existing `(type='rule', label)` row,
delete it (the code also syncs the FTS index by hand; `vec_entries` is not
touched), then insert the fresh rule row.  `fresh`, `date` and `time`
stand for the `Date.now()`/`Math.random()` id mint and the clock reads. -/
def saveRule (fresh date time : String) (s : Store) (label content : String) :
    Int × Store :=
  let s₁ :=
    match s.rows.find? (rulePred label) with
    | some ex => { s with rows := s.rows.filter (fun r => r.rowid != ex.rowid) }
    | none => s
  let rid := maxRowid s₁ + 1
  (rid, { s₁ with rows := s₁.rows ++ [mkRuleRow rid fresh date time label content] })

/-- The row→object mapping of `listRules` (it also selects `label`). -/
def rowToRule (r : Row) : ContextEntry :=
  { rowToEntry r with label := r.label }

/-- `ContextIndex.listRules`: unarchived rules, `ORDER BY date DESC`. -/
def listRules (s : Store) : List ContextEntry :=
  (List.insertionSort (fun a b : Row => (!jsStrLt a.date b.date) = true)
    (s.rows.filter (fun r => r.type == "rule" && !r.archived))).map rowToRule

/-- `ContextIndex.deleteRule`: delete the `(type='rule', label)` row and
its FTS entry; `vec_entries` is not touched.  Returns whether a row was
deleted. -/
def deleteRule (s : Store) (label : String) : Bool × Store :=
  match s.rows.find? (rulePred label) with
  | none => (false, s)
  | some ex => (true, { s with rows := s.rows.filter (fun r => r.rowid != ex.rowid) })

/-- `ContextIndex.getEmbedding`: rowid lookup by id, then
`SELECT embedding FROM vec_entries WHERE rowid = ?`. -/
def getEmbedding (s : Store) (entryId : String) : Option (List ℚ) :=
  match s.rows.find? (fun r => r.id == entryId) with
  | none => none
  | some r => (s.vecs.find? (fun p => p.1 == r.rowid)).map (fun p => p.2)

end ContextIndex

end Synaptic

namespace Synaptic

/-! ### Consolidation (`findConsolidationCandidates` in
`src/storage/sqlite.ts` and `consolidate`/`runMaintenance` in the
maintenance module) -/

/-- Dot product of two rational vectors (the loop in
`cosineSimilarity` accumulating `dot`; `normA`/`normB` are
`dotList a a` / `dotList b b`). -/
def dotList (a b : List ℚ) : ℚ :=
  (List.zipWith (fun x y => x * y) a b).sum

/-- The file-local `cosineSimilarity`:
`dot / (Math.sqrt(normA) * Math.sqrt(normB))` (vectors of equal length). -/
noncomputable def cosineSimilarity (a b : List ℚ) : ℝ :=
  ((dotList a b : ℚ) : ℝ) /
    (Real.sqrt ((dotList a a : ℚ) : ℝ) * Real.sqrt ((dotList b b : ℚ) : ℝ))

/-- One group found by `findConsolidationCandidates`. -/
structure Group where
  label : String
  entries : List ContextEntry
  deriving DecidableEq, Repr

/-- The inner `for j = i+1 ...` loop of `findConsolidationCandidates`:
collect later candidates that are unused, have an embedding, and whose
cosine similarity with `embA` reaches the threshold. -/
noncomputable def clusterScan (getEmb : String → Option (List ℚ))
    (embA : List ℚ) (threshold : ℝ) (used : List String) :
    List ContextEntry → List ContextEntry
  | [] => []
  | d :: rest =>
    let tail := clusterScan getEmb embA threshold used rest
    if used.contains d.id then tail
    else
      match getEmb d.id with
      | none => tail
      | some embB =>
        if threshold ≤ cosineSimilarity embA embB then d :: tail else tail

/-- The outer loop of `findConsolidationCandidates`: greedy first-match
clustering over the candidate list, keeping clusters of size ≥ 3 and
marking their members used. -/
noncomputable def buildClusters (getEmb : String → Option (List ℚ))
    (threshold : ℝ) : List ContextEntry → List String → List Group
  | [], _ => []
  | c :: rest, used =>
    if used.contains c.id then buildClusters getEmb threshold rest used
    else
      match getEmb c.id with
      | none => buildClusters getEmb threshold rest used
      | some embA =>
        let cluster := c :: clusterScan getEmb embA threshold used rest
        if 3 ≤ cluster.length then
          { label := c.content.take 80, entries := cluster } ::
            buildClusters getEmb threshold rest (used ++ cluster.map (fun e => e.id))
        else buildClusters getEmb threshold rest used

/-- `ContextIndex.findConsolidationCandidates`: non-archived
issues/decisions of the last 30 days, greedily clustered by cosine
similarity. -/
noncomputable def findConsolidationCandidates (env : DbEnv) (s : Store)
    (threshold : ℝ) : List Group :=
  let candidates := (ContextIndex.list env s { days := some 30 }).filter
    (fun e => e.type == "issue" || e.type == "decision")
  if candidates.length < 3 then []
  else buildClusters (ContextIndex.getEmbedding s) threshold candidates []

/-- Set union of tag lists preserving the base order (helper for the
spec-modelled `mergeTagsInto`). -/
def unionTags : List String → List String → List String
  | base, [] => base
  | base, t :: ts =>
    if base.contains t then unionTags base ts else unionTags (base ++ [t]) ts

/-- Modelled from the spec: `ContextIndex.mergeTagsInto(survivorId,
otherIds)` is called by `consolidate` but its body is not among the
repository files.  Per the spec's consolidation step, it merges the other
entries' tags into the survivor as a set union preserving the survivor's
original order. -/
def mergeTagsInto (s : Store) (survivorId : String) (otherIds : List String) :
    Store :=
  let extra := ((s.rows.filter (fun r => otherIds.contains r.id)).map
    (fun r => jsSplitTags r.tags)).flatten
  { s with rows := s.rows.map (fun r =>
      if r.id == survivorId then
        { r with tags := jsJoinTags (unionTags (jsSplitTags r.tags) extra) }
      else r) }

/-- Modelled from the spec: `ContextIndex.updateEntryContent(id, content)`
is called by `consolidate` but its body is not among the repository
files.  It overwrites the entry's content. -/
def updateEntryContent (s : Store) (entryId content : String) : Store :=
  { s with rows := s.rows.map (fun r =>
      if r.id == entryId then { r with content := content } else r) }

/-- Modelled from the spec: `ContextIndex.changeTier(id, tier)` is called
by `consolidate` but its body is not among the repository files.  It
overwrites the entry's tier. -/
def changeTier (s : Store) (entryId tier : String) : Store :=
  { s with rows := s.rows.map (fun r =>
      if r.id == entryId then { r with tier := tier } else r) }

/-- The comparator of `eligible.sort((a, b) => (b.accessCount ?? 0) -
(a.accessCount ?? 0))`: `a` may come before `b` when `a`'s access count is
at least `b`'s (JavaScript's sort is stable, so ties keep list order). -/
def acGe (a b : ContextEntry) : Prop :=
  (b.accessCount.getD 0) ≤ (a.accessCount.getD 0)

instance : DecidableRel acGe := fun a b =>
  Nat.decLe (b.accessCount.getD 0) (a.accessCount.getD 0)

/-- The body of `consolidate`'s per-group loop: filter the group to
entries older than 3 days (`now - entryDate > 3*24*60*60*1000` ms), need
at least 3, skip rule/reference, sort by access count descending (stable,
so candidate order — most recent first — breaks ties), then merge tags,
append the consolidation note, promote an ephemeral survivor, and archive
the others. -/
def consolidateGroup (env : DbEnv) (s : Store) (g : Group) : Store × ℕ :=
  let eligible := g.entries.filter
    (fun e => decide (259200000 < env.todayMs - env.dateMs e.date))
  if eligible.length < 3 then (s, 0)
  else if eligible.any (fun e => e.type == "rule" || e.type == "reference") then
    (s, 0)
  else
    match List.insertionSort acGe eligible with
    | [] => (s, 0)
    | survivor :: others =>
      let s₁ := mergeTagsInto s survivor.id (others.map (fun e => e.id))
      let s₂ := updateEntryContent s₁ survivor.id
        (survivor.content ++ "\n[Consolidated from " ++
          toString eligible.length ++ " entries]")
      let s₃ := if survivor.tier == some "ephemeral" then
          changeTier s₂ survivor.id "working"
        else s₂
      let s₄ := (ContextIndex.archiveEntries s₃ (others.map (fun e => e.id))).2
      (s₄, 1)

/-- The `for (const group of groups)` loop of `consolidate`, accumulating
the count of consolidated groups. -/
def consolidateLoop (env : DbEnv) : List Group → Store → Store × ℕ
  | [], s => (s, 0)
  | g :: gs, s =>
    let r := consolidateGroup env s g
    let r' := consolidateLoop env gs r.1
    (r'.1, r.2 + r'.2)

/-- The maintenance module's `consolidate(index)`:
`findConsolidationCandidates(0.75)` then the per-group loop. -/
noncomputable def consolidate (env : DbEnv) (s : Store) : Store × ℕ :=
  consolidateLoop env (findConsolidationCandidates env s (3 / 4)) s

/-- The maintenance module's report record. -/
structure MaintenanceReport where
  decayed : ℕ
  demoted : ℕ
  promotedStable : ℕ
  promotedFrequent : ℕ
  consolidated : ℕ
  deriving DecidableEq, Repr

/-- The maintenance module's `runMaintenance`: the five passes in order. -/
noncomputable def runMaintenance (env : DbEnv) (s : Store) :
    Store × MaintenanceReport :=
  let d := ContextIndex.decayEphemeral env s
  let dm := ContextIndex.demoteIdle env d.2
  let ps := ContextIndex.promoteStable env dm.2
  let pf := ContextIndex.promoteFrequent ps.2
  let cs := consolidate env pf.2
  (cs.1, { decayed := d.1, demoted := dm.1, promotedStable := ps.1,
           promotedFrequent := pf.1, consolidated := cs.2 })

end Synaptic

namespace Synaptic

/-! ### Transcript scanner (`src/storage/transcript.ts`,
`src/hooks/stop.ts`)

The JSONL buffer is modelled as a character list (the transcripts the
scanner reads are treated byte-per-character); `JSON.parse` of one line is
an external parameter `parseLine`. -/

/-- One message returned by `readNewMessages`. -/
structure TranscriptMessage where
  role : String
  text : String
  deriving DecidableEq, Repr

/-- The persisted transcript cursor `{file, offset}`. -/
structure CursorData where
  file : String
  offset : ℕ
  deriving DecidableEq, Repr

/-- One block of array-shaped message content. -/
structure ContentBlock where
  type : String
  text : Option String
  deriving DecidableEq, Repr

/-- The `message.content` field of a parsed JSONL record: a string, an
array of blocks, or anything else. -/
inductive JsonContent where
  | str (s : String)
  | blocks (bs : List ContentBlock)
  | other
  deriving DecidableEq, Repr

/-- A parsed JSONL record: `{type, message?: {content}}`. -/
structure ParsedLine where
  type : String
  message : Option JsonContent
  deriving DecidableEq, Repr

/-- `extractTextContent`: the trimmed string, or the `\n`-join of the
non-empty trimmed `text` fields of `{type:"text"}` blocks; `null` when
nothing remains. -/
def extractTextContent : JsonContent → Option String
  | .str s => let t := s.trim; if t = "" then none else some t
  | .blocks bs =>
    let parts := bs.filterMap (fun b =>
      if b.type == "text" then
        match b.text with
        | some t => let tr := t.trim; if tr = "" then none else some tr
        | none => none
      else none)
    if parts = [] then none else some (String.intercalate "\n" parts)
  | .other => none

/-- `chunk.split("\n")` on character lists. -/
def splitNl : List Char → List (List Char)
  | [] => [[]]
  | c :: rest =>
    if c = '\n' then [] :: splitNl rest
    else
      match splitNl rest with
      | [] => [[c]]
      | p :: ps => (c :: p) :: ps

/-- `readNewMessages(filePath, byteOffset)`: `none` content models a read
error (`readFileSync` threw), in which case the old offset is returned;
otherwise, when `byteOffset >= buf.length` the result is
`([], buf.length)`, and otherwise the chunk after `byteOffset` is split
into lines, each line is trimmed, parsed, filtered by role and by the
20-character minimum, and the new offset is `buf.length` — the current
file size, unconditionally. -/
def readNewMessages (parseLine : String → Option ParsedLine)
    (fileContent : Option String) (byteOffset : ℕ) :
    List TranscriptMessage × ℕ :=
  match fileContent with
  | none => ([], byteOffset)
  | some buf =>
    if buf.length ≤ byteOffset then ([], buf.length)
    else
      (((splitNl (buf.toList.drop byteOffset)).map String.mk).filterMap
        (fun line =>
          let trimmed := line.trim
          if trimmed = "" then none
          else
            match parseLine trimmed with
            | none => none
            | some p =>
              if p.type == "user" then
                match p.message with
                | some (.str content) =>
                  let text := content.trim
                  if text.length < 20 then none
                  else some { role := "user", text := text }
                | _ => none
              else if p.type == "assistant" then
                match p.message with
                | none => none
                | some content =>
                  match extractTextContent content with
                  | none => none
                  | some text =>
                    if text.length < 20 then none
                    else some { role := "assistant", text := text }
              else none),
       buf.length)

/-- The cursor effect of `scanTranscript` in `src/hooks/stop.ts`: the
offset is taken from the stored cursor when it names the file being
scanned (else 0), `readNewMessages` runs, and `{file, newOffset}` is
persisted on every path (both the early return when no qualifying message
is found and step 8; the classification steps in between do not touch the
cursor). -/
def scanTranscriptCursor (parseLine : String → Option ParsedLine)
    (transcriptFile : String) (fileContent : Option String)
    (cursor : Option CursorData) : CursorData :=
  let offset :=
    match cursor with
    | some c => if c.file == transcriptFile then c.offset else 0
    | none => 0
  { file := transcriptFile,
    offset := (readNewMessages parseLine fileContent offset).2 }

end Synaptic

namespace Synaptic

/-! ### Fixtures and derived notions used by the claim theorems -/

/-- The invariant claimed of the vector index: every vector is keyed by
the rowid of exactly one live entries row. -/
def vecConsistent (s : Store) : Prop :=
  ∀ rid ∈ s.vecs.map (fun p => p.1), (s.rows.filter (fun r => r.rowid == rid)).length = 1

instance (s : Store) : Decidable (vecConsistent s) := by
  unfold vecConsistent
  infer_instance

/-- A plain insight entry used as concrete input. -/
def exInsight : ContextEntry :=
  { id := "e1", date := "2026-02-20", time := "10:00", type := "insight",
    tags := [], content := "one", sourceFile := "f" }

/-- A rule entry used as concrete input (as `saveRule` would store it). -/
def exRuleRow : Row :=
  ContextIndex.mkRuleRow 1 "r1" "2026-02-20" "10:00" "style" "no emoji"

/-- C1: the spec says every vector in the vector index corresponds to
exactly one live entry row, across insert (an upsert by id), replace and
rule deletion.  The code violates this: `INSERT OR REPLACE` gives the
replacement row a fresh rowid and never deletes the old row's vector, and
`deleteRule` deletes the entries row and its FTS entry but not the
vector.  Evaluating the model: after `insert e; insertVec; insert e`
(same id) the vector keyed by the dead rowid 1 remains with no matching
entries row, and likewise after `deleteRule`. -/
theorem C1_dangling_vector_code_bug :
    (vecConsistent
      (ContextIndex.insertVec (ContextIndex.insert {} exInsight).2 1 [1]) ∧
     ¬ vecConsistent
      (ContextIndex.insert
        (ContextIndex.insertVec (ContextIndex.insert {} exInsight).2 1 [1])
        exInsight).2) ∧
    ¬ vecConsistent
      (ContextIndex.deleteRule
        (ContextIndex.insertVec { rows := [exRuleRow] } 1 [1]) "style").2 := by
  constructor
  · constructor
    · decide
    · decide
  · decide

/-- Store for the C3/C4 concrete runs: one unpinned issue row and one
pinned decision row. -/
def exIssueRow : Row :=
  { rowid := 1, id := "a", date := "2026-02-20", time := "10:00",
    type := "issue", tags := "", content := "c", sourceFile := "f",
    tier := "working", accessCount := 0, lastAccessed := none,
    pinned := false, archived := false, label := none, project := none,
    sessionId := none, agentId := none }

/-- C3 counterexample: with one unpinned entry `a`, `archive(["a"])`
returns 1 and an immediate second `archive(["a"])` returns 1 again, not 0
— SQLite's `changes` counts the matched row although `archived` is
already 1 (the `WHERE` clause has no `archived = 0` condition). -/
theorem C3_archive_second_call_counterexample :
    (ContextIndex.archiveEntries { rows := [exIssueRow] } ["a"]).1 = 1 ∧
    (ContextIndex.archiveEntries
      (ContextIndex.archiveEntries { rows := [exIssueRow] } ["a"]).2 ["a"]).1 = 1 ∧
    (1 : ℕ) ≠ 0 := by
  refine ⟨by decide, by decide, by decide⟩

/-- C3 amended: `archive` sets `archived = true` only for unpinned rows
(pinned rows pass through unchanged) and is idempotent in state, but its
return value is the count of unpinned rows among the ids — already
archived or not — so the second of two identical calls returns the same
count as the first, not 0. -/
theorem C3_archive_idempotent_state_same_count (s : Store) (ids : List String) :
    (ContextIndex.archiveEntries (ContextIndex.archiveEntries s ids).2 ids).1
      = (ContextIndex.archiveEntries s ids).1 ∧
    (ContextIndex.archiveEntries (ContextIndex.archiveEntries s ids).2 ids).2
      = (ContextIndex.archiveEntries s ids).2 ∧
    ∀ r ∈ s.rows, r.pinned = true → r ∈ (ContextIndex.archiveEntries s ids).2.rows := by
  have hhit : ∀ r : Row,
      ContextIndex.archiveHit ids
        (if ContextIndex.archiveHit ids r then { r with archived := true } else r)
      = ContextIndex.archiveHit ids r := by
    intro r
    by_cases hc : ContextIndex.archiveHit ids r = true
    · rw [if_pos hc]; rfl
    · rw [if_neg hc]
  refine ⟨?_, ?_, ?_⟩
  · unfold ContextIndex.archiveEntries
    simp only [List.filter_map, List.length_map]
    congr 1
    apply List.filter_congr
    intro r _
    exact hhit r
  · unfold ContextIndex.archiveEntries
    simp only [List.map_map]
    congr 1
    apply List.map_congr_left
    intro r _
    simp only [Function.comp_apply]
    by_cases hc : ContextIndex.archiveHit ids r = true
    · have hc2 : ContextIndex.archiveHit ids ({ r with archived := true } : Row) = true := hc
      rw [if_pos hc, if_pos hc2]
    · rw [if_neg hc, if_neg hc]
  · intro r hr hp
    have hfalse : ¬ ContextIndex.archiveHit ids r = true := by
      simp [ContextIndex.archiveHit, hp]
    unfold ContextIndex.archiveEntries
    exact List.mem_map.mpr ⟨r, hr, by rw [if_neg hfalse]⟩

/-- C3 amended, instantiated: the concrete double-archive run. -/
theorem C3_archive_idempotent_state_same_count_witness :
    (ContextIndex.archiveEntries
      (ContextIndex.archiveEntries { rows := [exIssueRow] } ["a"]).2 ["a"]).1
      = (ContextIndex.archiveEntries { rows := [exIssueRow] } ["a"]).1 ∧
    (ContextIndex.archiveEntries
      (ContextIndex.archiveEntries { rows := [exIssueRow] } ["a"]).2 ["a"]).2
      = (ContextIndex.archiveEntries { rows := [exIssueRow] } ["a"]).2 ∧
    ∀ r ∈ ({ rows := [exIssueRow] } : Store).rows, r.pinned = true →
      r ∈ (ContextIndex.archiveEntries { rows := [exIssueRow] } ["a"]).2.rows :=
  C3_archive_idempotent_state_same_count { rows := [exIssueRow] } ["a"]

end Synaptic

namespace Synaptic

/-- Effective tier after the two promotion passes (neither of which
checks `pinned`). -/
def maintTierOf (env : DbEnv) (r : Row) : String :=
  if ContextIndex.promoteStableCond env r then "longterm"
  else if ContextIndex.promoteFrequentCond r then "working"
  else r.tier

/-- Environment for the C4 concrete run: today is 2026-02-20. -/
def envC4 : DbEnv where
  fts := fun _ => []
  cutoff := fun n => if n = 7 then "2026-02-13" else "1970-01-01"
  today := "2026-02-20"
  todayMs := 0
  dateMs := fun _ => 0

/-- A pinned working decision, ten days old. -/
def pinnedDecisionRow : Row :=
  { rowid := 1, id := "p1", date := "2026-02-10", time := "09:00",
    type := "decision", tags := "", content := "c", sourceFile := "f",
    tier := "working", accessCount := 0, lastAccessed := none,
    pinned := true, archived := false, label := none, project := none,
    sessionId := none, agentId := none }

/-- C4 counterexample: `promoteStable`'s SQL has no `pinned = 0`
condition, so the maintenance pass changes the tier of a pinned working
decision older than 7 days from `working` to `longterm` — the claim says
maintenance never changes the tier of a pinned entry. -/
theorem C4_promote_changes_pinned_tier_counterexample :
    ((ContextIndex.promoteStable envC4 { rows := [pinnedDecisionRow] }).2.rows.map
      (fun r => (r.pinned, r.tier))) = [(true, "longterm")] ∧
    pinnedDecisionRow.tier = "working" ∧
    ("longterm" : String) ≠ "working" := by
  refine ⟨by decide, by decide, by decide⟩

/-- C4 amended: the decay and demote passes leave pinned entries entirely
unchanged — in particular maintenance never archives or demotes a pinned
entry — but the two promotion passes do not check `pinned`: after the
four passes, a pinned row is exactly the original row with its tier
raised by `promoteStable` (working decisions/insights older than 7 days →
`longterm`) or else by `promoteFrequent` (ephemeral with access ≥ 3 →
`working`), and with every other field, `archived` included, intact. -/
theorem C4_pinned_only_promoted (env : DbEnv) (s : Store) :
    ∃ F : Row → Row,
      (ContextIndex.promoteFrequent
        (ContextIndex.promoteStable env
          (ContextIndex.demoteIdle env
            (ContextIndex.decayEphemeral env s).2).2).2).2.rows
        = s.rows.map F ∧
      ∀ r : Row, r.pinned = true → F r = { r with tier := maintTierOf env r } := by
  refine ⟨fun r =>
    (fun r₃ => if ContextIndex.promoteFrequentCond r₃ then { r₃ with tier := "working" } else r₃)
    ((fun r₂ => if ContextIndex.promoteStableCond env r₂ then { r₂ with tier := "longterm" } else r₂)
    ((fun r₁ => if ContextIndex.demoteCond env r₁ then { r₁ with tier := "ephemeral" } else r₁)
    (if ContextIndex.decayCond env r then { r with archived := true } else r))), ?_, ?_⟩
  · unfold ContextIndex.decayEphemeral ContextIndex.demoteIdle
      ContextIndex.promoteStable ContextIndex.promoteFrequent
    simp only [List.map_map]
    rfl
  · intro r hp
    have hdecay : ContextIndex.decayCond env r = false := by
      simp [ContextIndex.decayCond, hp]
    have hdemote : ContextIndex.demoteCond env r = false := by
      simp [ContextIndex.demoteCond, hp]
    simp only [hdecay, hdemote, Bool.false_eq_true, if_false]
    unfold maintTierOf
    by_cases hs : ContextIndex.promoteStableCond env r = true
    · have hfreq : ContextIndex.promoteFrequentCond ({ r with tier := "longterm" } : Row) = false := by
        simp [ContextIndex.promoteFrequentCond]
      simp only [hs, if_true, hfreq, Bool.false_eq_true, if_false]
    · have hs' : ContextIndex.promoteStableCond env r = false := by
        simpa using hs
      simp only [hs', Bool.false_eq_true, if_false]
      by_cases hf : ContextIndex.promoteFrequentCond r = true
      · simp only [hf, if_true]
      · have hf' : ContextIndex.promoteFrequentCond r = false := by
          simpa using hf
        simp only [hf', Bool.false_eq_true, if_false]

/-- C4 amended, instantiated at the concrete pinned store. -/
theorem C4_pinned_only_promoted_witness :
    ∃ F : Row → Row,
      (ContextIndex.promoteFrequent
        (ContextIndex.promoteStable envC4
          (ContextIndex.demoteIdle envC4
            (ContextIndex.decayEphemeral envC4 { rows := [pinnedDecisionRow] }).2).2).2).2.rows
        = ({ rows := [pinnedDecisionRow] } : Store).rows.map F ∧
      ∀ r : Row, r.pinned = true → F r = { r with tier := maintTierOf envC4 r } :=
  C4_pinned_only_promoted envC4 { rows := [pinnedDecisionRow] }

/-- C5 counterexample: the age is not floored at 0 and the decay is not
clamped to 1.0 — for an entry dated 30 days in the future the age is −30
days and `Math.pow(0.5, −30/30) = 2`, not 1. -/
theorem C5_decay_not_clamped_counterexample :
    ContextIndex.ageDaysMs 0 2592000000 = -30 ∧
    ContextIndex.hsDecay (ContextIndex.ageDaysMs 0 2592000000) = 2 ∧ (2 : ℝ) ≠ 1 := by
  have hage : ContextIndex.ageDaysMs 0 2592000000 = -30 := by
    unfold ContextIndex.ageDaysMs
    norm_num
  refine ⟨hage, ?_, by norm_num⟩
  rw [hage]
  unfold ContextIndex.hsDecay
  rw [show (((-30 : ℚ) : ℝ) / 30 : ℝ) = ((-1 : ℤ) : ℝ) by push_cast; norm_num,
    Real.rpow_intCast]
  norm_num

/-- C5 amended: for an entry dated in the future the age in days is
negative and the decay factor strictly exceeds 1 (the score is boosted,
not clamped); the factor is a well-defined positive real for every date,
so the score is never NaN. -/
theorem C5_decay_future_exceeds_one (todayMs dateMs : Int) :
    (todayMs < dateMs → 1 < ContextIndex.hsDecay (ContextIndex.ageDaysMs todayMs dateMs)) ∧
    0 < ContextIndex.hsDecay (ContextIndex.ageDaysMs todayMs dateMs) := by
  constructor
  · intro h
    unfold ContextIndex.hsDecay
    rw [Real.one_lt_rpow_iff_of_pos (by norm_num)]
    refine Or.inr ⟨by norm_num, ?_⟩
    have hq : ContextIndex.ageDaysMs todayMs dateMs < 0 := by
      unfold ContextIndex.ageDaysMs
      apply div_neg_of_neg_of_pos
      · exact_mod_cast Int.sub_neg_of_lt h
      · norm_num
    have hr : ((ContextIndex.ageDaysMs todayMs dateMs : ℚ) : ℝ) < 0 := by exact_mod_cast hq
    exact div_neg_of_neg_of_pos hr (by norm_num)
  · exact Real.rpow_pos_of_pos (by norm_num) _

/-- C5 amended, instantiated 30 days in the future. -/
theorem C5_decay_future_exceeds_one_witness :
    (1 : ℝ) < ContextIndex.hsDecay (ContextIndex.ageDaysMs 0 2592000000) ∧
    (0 : ℝ) < ContextIndex.hsDecay (ContextIndex.ageDaysMs 0 2592000000) :=
  ⟨(C5_decay_future_exceeds_one 0 2592000000).1 (by decide),
   (C5_decay_future_exceeds_one 0 2592000000).2⟩

theorem confidenceBoost_monotone {a b : ℕ} (h : a ≤ b) :
    ContextIndex.confidenceBoost a ≤ ContextIndex.confidenceBoost b := by
  unfold ContextIndex.confidenceBoost
  split_ifs <;> (first | omega | norm_num)

theorem tierWeight_nonneg (t : Option String) : 0 ≤ ContextIndex.tierWeight t := by
  unfold ContextIndex.tierWeight
  split <;> norm_num

/-- C8: the hybrid score is monotone in `access_count` with the RRF
contribution, date (hence decay) and tier held fixed, and any
`access_count` above the top bucket uses the `≥6` multiplier `1.4` (e.g.
`confidenceBoost 1000 = 1.4 = confidenceBoost 6`). -/
theorem C8_score_monotone_in_access :
    (∀ (rrf age : ℚ) (tier : Option String) (ac₁ ac₂ : ℕ),
      0 ≤ rrf → ac₁ ≤ ac₂ →
      ContextIndex.entryScore rrf age tier ac₁ ≤
        ContextIndex.entryScore rrf age tier ac₂) ∧
    ContextIndex.confidenceBoost 1000 = 7 / 5 ∧
    ContextIndex.confidenceBoost 6 = 7 / 5 := by
  refine ⟨?_, rfl, rfl⟩
  intro rrf age tier ac₁ ac₂ hrrf hac
  unfold ContextIndex.entryScore
  have hbase : (0 : ℝ) ≤ (rrf : ℝ) * ContextIndex.hsDecay age * (ContextIndex.tierWeight tier : ℝ) := by
    apply mul_nonneg
    apply mul_nonneg
    · exact_mod_cast hrrf
    · exact le_of_lt (Real.rpow_pos_of_pos (by norm_num) _)
    · exact_mod_cast tierWeight_nonneg tier
  apply mul_le_mul_of_nonneg_left _ hbase
  exact_mod_cast confidenceBoost_monotone hac

/-- C8 instantiated: raising the bucket from 0 to ≥6 does not lower the
score at RRF 1, age 0, default tier. -/
theorem C8_score_monotone_in_access_witness :
    (0 : ℚ) ≤ 1 ∧ (0 : ℕ) ≤ 6 ∧
    ContextIndex.entryScore 1 0 none 0 ≤ ContextIndex.entryScore 1 0 none 6 :=
  ⟨zero_le_one, Nat.zero_le 6,
    C8_score_monotone_in_access.1 1 0 none 0 6 zero_le_one (Nat.zero_le 6)⟩

/-- C9 counterexample: with the stored cursor naming the file being
scanned at offset 10 while the file now holds only 5 bytes, the persisted
offset after the scan is 5 < 10 — `readNewMessages` returns the current
file size as the new offset, so a truncated transcript moves the cursor
backwards. -/
theorem C9_cursor_backwards_counterexample :
    (scanTranscriptCursor (fun _ => none) "t.jsonl" (some "abcde")
      (some { file := "t.jsonl", offset := 10 })).offset = 5 ∧
    ¬ (10 ≤ 5) := by
  refine ⟨by decide, by decide⟩

/-- C9 amended: on every scan whose stored cursor names the file being
scanned, the persisted offset equals the current file size (or is
unchanged when the read fails), so `offset_after ≥ offset_before` holds
exactly when the file has not shrunk below the stored offset; a
truncation below the stored offset moves the cursor backwards. -/
theorem C9_cursor_monotone_unless_truncated
    (parseLine : String → Option ParsedLine) (file : String)
    (content : Option String) (c : CursorData)
    (hfile : c.file = file)
    (hlen : ∀ buf, content = some buf → c.offset ≤ buf.length) :
    c.offset ≤ (scanTranscriptCursor parseLine file content (some c)).offset := by
  unfold scanTranscriptCursor
  cases content with
  | none => simp [readNewMessages, hfile]
  | some buf =>
    have hb := hlen buf rfl
    simp only [readNewMessages, hfile, beq_self_eq_true, if_true]
    by_cases hin : buf.length ≤ c.offset
    · rw [if_pos hin]
      exact hb
    · rw [if_neg hin]
      exact hb

/-- C9 amended, instantiated: same file, offset 1, file of 3 bytes. -/
theorem C9_cursor_monotone_unless_truncated_witness :
    ({ file := "t", offset := 1 } : CursorData).offset ≤
      (scanTranscriptCursor (fun _ => none) "t" (some "abc")
        (some { file := "t", offset := 1 })).offset :=
  C9_cursor_monotone_unless_truncated (fun _ => none) "t" (some "abc")
    { file := "t", offset := 1 } rfl
    (fun buf h => by
      injection h with h'
      rw [← h']
      decide)

end Synaptic

namespace Synaptic

/-- Environment for the C2 concrete run: the FTS engine matches nothing
(the query shares no token with any entry), all dates resolve to today. -/
def envC2 : DbEnv where
  fts := fun _ => []
  cutoff := fun _ => "1970-01-01"
  today := "2026-02-20"
  todayMs := 0
  dateMs := fun _ => 0

/-- Store for the C2 concrete run: the single issue row with a vector, so
the entry is reachable only through the vector arm. -/
def storeC2 : Store := { rows := [exIssueRow], vecs := [(1, [1])] }

/-- Concrete evaluation of `hybridSearch` with a `type := "decision"`
filter on a store whose only entry is an `issue` reachable only through
the vector arm: the issue is returned anyway. -/
theorem hybridC2_eval :
    ContextIndex.hybridSearch envC2 storeC2 "q" [1] { type := some "decision" } =
      some ([rowToEntry exIssueRow], ContextIndex.bumpAccess envC2 storeC2 ["a"]) := by
  rfl

end Synaptic

namespace Synaptic

/-- C2 counterexample: calling `hybridSearch` with a `type` filter set to
`"decision"` returns the store's only entry, which is of type `"issue"`
and was reached only through the vector arm — the `type` filter is
applied to the lexical arm alone and is absent from the final filter (as
is any `project` filter, which `hybridSearch` does not even accept). -/
theorem C2_type_filter_not_enforced_counterexample :
    (ContextIndex.hybridSearch envC2 storeC2 "q" [1]
        { type := some "decision" }).map
      (fun p => p.1.map (fun e => e.type)) = some ["issue"] ∧
    ("issue" : String) ≠ "decision" := by
  refine ⟨?_, by decide⟩
  rw [hybridC2_eval]
  rfl

/-- C2 amended: every entry returned by `hybridSearch` satisfies the
archived filter (archived entries are dropped unless `includeArchived`)
and the tier filter (when set and non-empty); the `type` filter restricts
only the lexical candidate arm, so an entry of a different type reached
through the vector arm can appear in the result, and no `project` filter
exists in this function. -/
theorem C2_hybrid_filters_archived_and_tier (env : DbEnv) (s : Store)
    (query : String) (emb : List ℚ) (opts : SearchOpts)
    (res : List ContextEntry) (s' : Store)
    (h : ContextIndex.hybridSearch env s query emb opts = some (res, s')) :
    ∀ e ∈ res,
      (opts.includeArchived = false → e.archived = false) ∧
      (∀ t, opts.tier = some t → t ≠ "" → e.tier = some t) := by
  intro e he
  unfold ContextIndex.hybridSearch at h
  dsimp only at h
  split at h
  · exact absurd h (by simp)
  · rename_i scoredL heq
    have hpair := Option.some.inj h
    have hres : res = (ContextIndex.hybridPost env s opts scoredL).1 := by
      rw [hpair]
    rw [hres] at he
    unfold ContextIndex.hybridPost at he
    dsimp only at he
    obtain ⟨se, hse, rfl⟩ := List.mem_map.mp he
    have h1 : se ∈ List.insertionSort
        (fun a b : ContextEntry × ℝ => b.2 ≤ a.2)
        (scoredL.filter (ContextIndex.hybridKeep opts)) :=
      List.take_subset _ _ hse
    have h2 : se ∈ scoredL.filter (ContextIndex.hybridKeep opts) :=
      (List.perm_insertionSort _ _).mem_iff.mp h1
    have h3 : ContextIndex.hybridKeep opts se = true := (List.mem_filter.mp h2).2
    unfold ContextIndex.hybridKeep at h3
    rw [Bool.and_eq_true] at h3
    constructor
    · intro hia
      rw [hia] at h3
      have := h3.1
      simp only [Bool.not_false, Bool.true_and, Bool.not_eq_true'] at this
      exact this
    · intro t ht hne
      rw [ht] at h3
      have := h3.2
      simp only [if_neg hne] at this
      exact eq_of_beq this

/-- C2 amended, instantiated at the concrete run: the returned issue entry
is unarchived. -/
theorem C2_hybrid_filters_archived_and_tier_witness :
    (rowToEntry exIssueRow).archived = false :=
  ((C2_hybrid_filters_archived_and_tier envC2 storeC2 "q" [1]
      { type := some "decision" } [rowToEntry exIssueRow]
      (ContextIndex.bumpAccess envC2 storeC2 ["a"]) hybridC2_eval)
    (rowToEntry exIssueRow) (List.mem_singleton.mpr rfl)).1 rfl

end Synaptic

namespace Synaptic

theorem eq_singleton_of_length_le_one {α : Type} {l : List α} {x : α}
    (h1 : l.length ≤ 1) (h2 : x ∈ l) : l = [x] := by
  cases l with
  | nil => cases h2
  | cons a t =>
    cases t with
    | nil =>
      rcases List.mem_singleton.mp h2 with h
      rw [h]
    | cons b t2 => simp at h1

/-- One `saveRule` call on a store holding at most one `(rule, label)` row
leaves exactly the fresh rule row under that label. -/
theorem saveRule_filter (f d t : String) (s : Store) (l c : String)
    (hinv : (s.rows.filter (ContextIndex.rulePred l)).length ≤ 1) :
    ∃ rid, (ContextIndex.saveRule f d t s l c).2.rows.filter
      (ContextIndex.rulePred l) = [ContextIndex.mkRuleRow rid f d t l c] := by
  have hnew : ∀ rid, ContextIndex.rulePred l (ContextIndex.mkRuleRow rid f d t l c) = true := by
    intro rid
    simp [ContextIndex.rulePred, ContextIndex.mkRuleRow]
  unfold ContextIndex.saveRule
  cases hfind : s.rows.find? (ContextIndex.rulePred l) with
  | none =>
    refine ⟨ContextIndex.maxRowid s + 1, ?_⟩
    dsimp only
    rw [List.filter_append]
    rw [List.filter_eq_nil_iff.mpr (by
      intro a ha
      exact List.find?_eq_none.mp hfind a ha)]
    simp [hnew]
  | some ex =>
    have hex : ContextIndex.rulePred l ex = true := List.find?_some hfind
    have hmem : ex ∈ s.rows := List.mem_of_find?_eq_some hfind
    have hsingle : s.rows.filter (ContextIndex.rulePred l) = [ex] :=
      eq_singleton_of_length_le_one hinv (List.mem_filter.mpr ⟨hmem, hex⟩)
    refine ⟨ContextIndex.maxRowid
      { s with rows := s.rows.filter (fun r => r.rowid != ex.rowid) } + 1, ?_⟩
    dsimp only
    rw [List.filter_append, List.filter_filter,
      List.filter_congr
        (fun r _ => Bool.and_comm (ContextIndex.rulePred l r) (r.rowid != ex.rowid)),
      ← List.filter_filter, hsingle]
    simp [hnew]

end Synaptic

namespace Synaptic

/-- C7: after `save_rule(label, c1); save_rule(label, c2)` on a store
satisfying the unique-rule-label invariant (the partial unique index on
`(type='rule', label)`), the entries table contains exactly one rule row
with that label; its content is `c2`, its tier `longterm`, it is pinned
and has empty tags, and `list_rules()` returns exactly that row for the
label. -/
theorem C7_saveRule_upsert_single_rule (s : Store)
    (l c₁ c₂ f₁ f₂ d₁ d₂ t₁ t₂ : String)
    (hinv : (s.rows.filter (ContextIndex.rulePred l)).length ≤ 1) :
    ∃ rid,
      (ContextIndex.saveRule f₂ d₂ t₂
          (ContextIndex.saveRule f₁ d₁ t₁ s l c₁).2 l c₂).2.rows.filter
        (ContextIndex.rulePred l) = [ContextIndex.mkRuleRow rid f₂ d₂ t₂ l c₂] ∧
      (ContextIndex.mkRuleRow rid f₂ d₂ t₂ l c₂).content = c₂ ∧
      (ContextIndex.mkRuleRow rid f₂ d₂ t₂ l c₂).tier = "longterm" ∧
      (ContextIndex.mkRuleRow rid f₂ d₂ t₂ l c₂).pinned = true ∧
      jsSplitTags (ContextIndex.mkRuleRow rid f₂ d₂ t₂ l c₂).tags = [] ∧
      (ContextIndex.listRules
          (ContextIndex.saveRule f₂ d₂ t₂
            (ContextIndex.saveRule f₁ d₁ t₁ s l c₁).2 l c₂).2).filter
        (fun e => e.label == some l)
        = [ContextIndex.rowToRule (ContextIndex.mkRuleRow rid f₂ d₂ t₂ l c₂)] := by
  obtain ⟨rid1, h1⟩ := saveRule_filter f₁ d₁ t₁ s l c₁ hinv
  have hinv1 : ((ContextIndex.saveRule f₁ d₁ t₁ s l c₁).2.rows.filter
      (ContextIndex.rulePred l)).length ≤ 1 := by
    rw [h1]
    simp
  obtain ⟨rid2, h2⟩ := saveRule_filter f₂ d₂ t₂
    (ContextIndex.saveRule f₁ d₁ t₁ s l c₁).2 l c₂ hinv1
  refine ⟨rid2, h2, rfl, rfl, rfl, rfl, ?_⟩
  unfold ContextIndex.listRules
  rw [List.filter_map]
  have hperm : ((List.insertionSort (fun a b : Row => (!jsStrLt a.date b.date) = true)
      ((ContextIndex.saveRule f₂ d₂ t₂
        (ContextIndex.saveRule f₁ d₁ t₁ s l c₁).2 l c₂).2.rows.filter
        (fun r => r.type == "rule" && !r.archived))).filter
      ((fun e : ContextEntry => e.label == some l) ∘ ContextIndex.rowToRule)).Perm
      (((ContextIndex.saveRule f₂ d₂ t₂
        (ContextIndex.saveRule f₁ d₁ t₁ s l c₁).2 l c₂).2.rows.filter
        (fun r => r.type == "rule" && !r.archived)).filter
      ((fun e : ContextEntry => e.label == some l) ∘ ContextIndex.rowToRule)) :=
    (List.perm_insertionSort _ _).filter _
  have hcombined : (((ContextIndex.saveRule f₂ d₂ t₂
      (ContextIndex.saveRule f₁ d₁ t₁ s l c₁).2 l c₂).2.rows.filter
      (fun r => r.type == "rule" && !r.archived)).filter
      ((fun e : ContextEntry => e.label == some l) ∘ ContextIndex.rowToRule))
      = [ContextIndex.mkRuleRow rid2 f₂ d₂ t₂ l c₂] := by
    rw [List.filter_filter]
    have hstep : ((ContextIndex.saveRule f₂ d₂ t₂
        (ContextIndex.saveRule f₁ d₁ t₁ s l c₁).2 l c₂).2.rows.filter
        (fun r => ((fun e : ContextEntry => e.label == some l) ∘ ContextIndex.rowToRule) r
          && (r.type == "rule" && !r.archived)))
        = ((ContextIndex.saveRule f₂ d₂ t₂
        (ContextIndex.saveRule f₁ d₁ t₁ s l c₁).2 l c₂).2.rows.filter
        (fun r => !r.archived && ContextIndex.rulePred l r)) := by
      apply List.filter_congr
      intro r _
      simp only [Function.comp_apply, ContextIndex.rowToRule, rowToEntry,
        ContextIndex.rulePred]
      cases h1 : (r.type == "rule") <;> cases h2 : (r.label == some l) <;>
        cases h3 : r.archived <;> simp [h1, h2, h3]
    rw [hstep, ← List.filter_filter, h2]
    rfl
  rw [hcombined] at hperm
  rw [List.perm_singleton.mp hperm]
  rfl

/-- C7 instantiated: two saves of label `style` on the empty store. -/
theorem C7_saveRule_upsert_single_rule_witness :
    ∃ rid,
      (ContextIndex.saveRule "r2" "2026-02-21" "11:00"
          (ContextIndex.saveRule "r1" "2026-02-20" "10:00" {} "style" "v1").2
          "style" "v2").2.rows.filter
        (ContextIndex.rulePred "style")
        = [ContextIndex.mkRuleRow rid "r2" "2026-02-21" "11:00" "style" "v2"] ∧
      (ContextIndex.mkRuleRow rid "r2" "2026-02-21" "11:00" "style" "v2").content = "v2" ∧
      (ContextIndex.mkRuleRow rid "r2" "2026-02-21" "11:00" "style" "v2").tier = "longterm" ∧
      (ContextIndex.mkRuleRow rid "r2" "2026-02-21" "11:00" "style" "v2").pinned = true ∧
      jsSplitTags (ContextIndex.mkRuleRow rid "r2" "2026-02-21" "11:00" "style" "v2").tags = [] ∧
      (ContextIndex.listRules
          (ContextIndex.saveRule "r2" "2026-02-21" "11:00"
            (ContextIndex.saveRule "r1" "2026-02-20" "10:00" {} "style" "v1").2
            "style" "v2").2).filter
        (fun e => e.label == some "style")
        = [ContextIndex.rowToRule
            (ContextIndex.mkRuleRow rid "r2" "2026-02-21" "11:00" "style" "v2")] :=
  C7_saveRule_upsert_single_rule {} "style" "v1" "v2" "r1" "r2"
    "2026-02-20" "2026-02-21" "10:00" "11:00" (by decide)

end Synaptic

namespace Synaptic

/-- Retrieving just the inserted entry by its fresh rowid returns exactly
the freshly written row, mapped. -/
theorem getByRowids_insert (s : Store) (e : ContextEntry) :
    ContextIndex.getByRowids (ContextIndex.insert s e).2
      [(ContextIndex.insert s e).1]
      = [rowToEntry (ContextIndex.mkRow (ContextIndex.maxRowid s + 1) e)] := by
  unfold ContextIndex.insert ContextIndex.getByRowids
  dsimp only
  rw [List.filter_append]
  have hold : (s.rows.filter (fun r => r.id != e.id)).filter
      (fun r => [ContextIndex.maxRowid s + 1].contains r.rowid) = [] := by
    rw [List.filter_eq_nil_iff]
    intro r hr
    have hmem : r ∈ s.rows := List.mem_of_mem_filter hr
    have hle := ContextIndex.rowid_le_maxRowid s r hmem
    have hne : r.rowid ≠ ContextIndex.maxRowid s + 1 := by omega
    simp [hne]
  rw [hold]
  simp [ContextIndex.mkRow]

/-- C10: inserting an entry and reading it back (`get_by_rowids`)
round-trips the tag sequence exactly when every tag is non-empty and free
of the `", "` separator; when some tag contains `", "`, the read-back tag
list always differs from the original. -/
theorem C10_tags_roundtrip (s : Store) (e : ContextEntry) :
    ((∀ t ∈ e.tags, t ≠ "" ∧ hasSep t.toList = false) →
      (ContextIndex.getByRowids (ContextIndex.insert s e).2
        [(ContextIndex.insert s e).1]).map (fun o => o.tags) = [e.tags]) ∧
    ((∃ t ∈ e.tags, hasSep t.toList = true) →
      (ContextIndex.getByRowids (ContextIndex.insert s e).2
        [(ContextIndex.insert s e).1]).map (fun o => o.tags) ≠ [e.tags]) := by
  constructor
  · intro hcond
    rw [getByRowids_insert]
    simp only [List.map_cons, List.map_nil]
    rw [show (rowToEntry (ContextIndex.mkRow (ContextIndex.maxRowid s + 1) e)).tags
      = jsSplitTags (jsJoinTags e.tags) from rfl]
    rw [jsSplitTags_jsJoinTags e.tags hcond]
  · intro hcond heq
    rw [getByRowids_insert] at heq
    simp only [List.map_cons, List.map_nil] at heq
    have heq' : jsSplitTags (jsJoinTags e.tags) = e.tags := by
      injection heq
    exact jsSplitTags_jsJoinTags_ne e.tags hcond heq'

/-- Entry with well-behaved tags. -/
def exTagsGood : ContextEntry :=
  { id := "g1", date := "2026-02-20", time := "10:00", type := "insight",
    tags := ["api", "auth"], content := "c", sourceFile := "f" }

/-- Entry with a tag containing the `", "` separator. -/
def exTagsBad : ContextEntry :=
  { id := "b1", date := "2026-02-20", time := "10:00", type := "insight",
    tags := ["a, b"], content := "c", sourceFile := "f" }

/-- C10 instantiated: `["api", "auth"]` round-trips; `["a, b"]` does not. -/
theorem C10_tags_roundtrip_witness :
    ((∀ t ∈ exTagsGood.tags, t ≠ "" ∧ hasSep t.toList = false) ∧
      (ContextIndex.getByRowids (ContextIndex.insert {} exTagsGood).2
        [(ContextIndex.insert {} exTagsGood).1]).map (fun o => o.tags)
        = [exTagsGood.tags]) ∧
    ((∃ t ∈ exTagsBad.tags, hasSep t.toList = true) ∧
      (ContextIndex.getByRowids (ContextIndex.insert {} exTagsBad).2
        [(ContextIndex.insert {} exTagsBad).1]).map (fun o => o.tags)
        ≠ [exTagsBad.tags]) :=
  ⟨⟨by decide, (C10_tags_roundtrip {} exTagsGood).1 (by decide)⟩,
   ⟨by decide, (C10_tags_roundtrip {} exTagsBad).2 (by decide)⟩⟩

end Synaptic

namespace Synaptic

/-- "At least as recent": `(a.date, a.time)` is lexicographically ≥
`(b.date, b.time)`.  The candidate list (`ORDER BY date DESC, time DESC`)
is pairwise so ordered. -/
def dtDescPair (a b : ContextEntry) : Prop :=
  jsStrLt a.date b.date = false ∧ (a.date = b.date → jsStrLt a.time b.time = false)

instance : DecidableRel dtDescPair := fun a b => by
  unfold dtDescPair
  infer_instance

/-- The per-row effect of one consolidated group on the entries table:
the survivor row gets the tag union, the consolidation note and (for an
ephemeral survivor) the `working` tier; every other unpinned row of the
cluster is archived; everything else is untouched. -/
def consolidationUpd (survivorId : String) (survivorEph : Bool)
    (note : String) (extra : List String) (otherIds : List String) (r : Row) : Row :=
  if r.id == survivorId then
    { r with tags := jsJoinTags (unionTags (jsSplitTags r.tags) extra),
             content := note,
             tier := if survivorEph then "working" else r.tier }
  else if ContextIndex.archiveHit otherIds r then { r with archived := true }
  else r

/-- The head of a stable insertion sort is the first element of the input
attaining it: the input splits around the head, and no element before the
split point is `r`-related to it. -/
theorem insertionSort_first_occurrence {α : Type} (r : α → α → Prop)
    [DecidableRel r] :
    ∀ (l : List α) (m : α) (rest : List α),
      List.insertionSort r l = m :: rest →
      ∃ l₁ l₂, l = l₁ ++ m :: l₂ ∧ ∀ y ∈ l₁, ¬ r y m := by
  intro l
  induction l with
  | nil =>
    intro m rest h
    simp [List.insertionSort] at h
  | cons x xs ih =>
    intro m rest h
    rw [List.insertionSort] at h
    cases hs : List.insertionSort r xs with
    | nil =>
      rw [hs] at h
      simp only [List.orderedInsert] at h
      injection h with h1 h2
      subst h1
      exact ⟨[], xs, rfl, by simp⟩
    | cons m' rest' =>
      rw [hs, List.orderedInsert] at h
      by_cases hr : r x m'
      · rw [if_pos hr] at h
        injection h with h1 h2
        subst h1
        exact ⟨[], xs, rfl, by simp⟩
      · rw [if_neg hr] at h
        injection h with h1 h2
        subst h1
        obtain ⟨l₁, l₂, hsplit, hnotr⟩ := ih m' rest' hs
        refine ⟨x :: l₁, l₂, by rw [hsplit]; rfl, ?_⟩
        intro y hy
        rcases List.mem_cons.mp hy with h' | h'
        · subst h'
          exact hr
        · exact hnotr y h'

end Synaptic

namespace Synaptic

/-- C6 amended: when `consolidate` processes a cluster of ≥ 3 eligible
(older than 3 days, non-rule/reference) entries, the survivor is the
first entry of the cluster attaining the maximal access count — with the
cluster listed most-recent-first, ties go to the most recent
`(date, time)` — the survivor row receives the merged tags, the
`\n[Consolidated from N entries]` note (N the eligible-cluster size) and,
if the survivor was ephemeral, the `working` tier; every *unpinned* other
cluster row is archived, while a pinned other row keeps its fields
(`archiveEntries` skips pinned rows); no other row changes. -/
theorem C6_consolidation_amended (env : DbEnv) (s : Store) (g : Group)
    (eligible : List ContextEntry) (survivor : ContextEntry)
    (others : List ContextEntry)
    (heligible : g.entries.filter
      (fun e => decide (259200000 < env.todayMs - env.dateMs e.date)) = eligible)
    (hel : 3 ≤ eligible.length)
    (hnr : eligible.any (fun e => e.type == "rule" || e.type == "reference") = false)
    (hsort : List.insertionSort acGe eligible = survivor :: others)
    (hnodup : (eligible.map (fun e => e.id)).Nodup)
    (hpw : eligible.Pairwise dtDescPair) :
    (consolidateGroup env s g).2 = 1 ∧
    (consolidateGroup env s g).1.rows = s.rows.map
      (consolidationUpd survivor.id (survivor.tier == some "ephemeral")
        (survivor.content ++ "\n[Consolidated from " ++
          toString eligible.length ++ " entries]")
        (((s.rows.filter (fun r =>
            (others.map (fun e => e.id)).contains r.id)).map
          (fun r => jsSplitTags r.tags)).flatten)
        (others.map (fun e => e.id))) ∧
    (∀ y ∈ eligible, y.accessCount.getD 0 ≤ survivor.accessCount.getD 0) ∧
    (∀ y ∈ eligible, y.accessCount.getD 0 = survivor.accessCount.getD 0 →
      y = survivor ∨ dtDescPair survivor y) := by
  have hperm : (List.insertionSort acGe eligible).Perm eligible :=
    List.perm_insertionSort _ _
  have hnodup' : ((survivor :: others).map (fun e => e.id)).Nodup := by
    rw [← hsort]
    exact (List.Perm.nodup_iff (hperm.map (fun e => e.id))).mpr hnodup
  have hsid : survivor.id ∉ others.map (fun e => e.id) := by
    simp only [List.map_cons, List.nodup_cons] at hnodup'
    exact hnodup'.1
  unfold consolidateGroup
  dsimp only
  rw [heligible, if_neg (by omega : ¬ eligible.length < 3), hnr,
    if_neg (by simp : ¬ (false = true)), hsort]
  dsimp only
  refine ⟨rfl, ?_, ?_, ?_⟩
  · -- the per-row map characterisation
    unfold mergeTagsInto updateEntryContent changeTier ContextIndex.archiveEntries
    dsimp only
    by_cases heph : (survivor.tier == some "ephemeral") = true
    · rw [if_pos heph]
      dsimp only
      simp only [List.map_map]
      apply List.map_congr_left
      intro r hr
      simp only [Function.comp_apply]
      by_cases hid : (r.id == survivor.id) = true
      · have hide : r.id = survivor.id := by simpa using hid
        have hcont : (others.map (fun e => e.id)).contains r.id = false := by
          rw [hide]
          simpa using hsid
        rw [if_pos hid]
        rw [if_pos (show ((({ r with
          tags := jsJoinTags (unionTags (jsSplitTags r.tags)
            (((s.rows.filter (fun r =>
              (others.map (fun e => e.id)).contains r.id)).map
              (fun r => jsSplitTags r.tags)).flatten)) } : Row).id == survivor.id) = true)
          from hid)]
        rw [if_pos (show ((({ r with
          tags := jsJoinTags (unionTags (jsSplitTags r.tags)
            (((s.rows.filter (fun r =>
              (others.map (fun e => e.id)).contains r.id)).map
              (fun r => jsSplitTags r.tags)).flatten)),
          content := survivor.content ++ "\n[Consolidated from " ++
            toString eligible.length ++ " entries]" } : Row).id == survivor.id) = true)
          from hid)]
        rw [if_neg (show ¬ (ContextIndex.archiveHit (others.map (fun e => e.id))
          ({ r with
            tags := jsJoinTags (unionTags (jsSplitTags r.tags)
              (((s.rows.filter (fun r =>
                (others.map (fun e => e.id)).contains r.id)).map
                (fun r => jsSplitTags r.tags)).flatten)),
            content := survivor.content ++ "\n[Consolidated from " ++
              toString eligible.length ++ " entries]",
            tier := "working" } : Row) = true) from by
          unfold ContextIndex.archiveHit
          dsimp only
          rw [hcont]
          simp)]
        unfold consolidationUpd
        rw [if_pos hid, heph]
        rfl
      · rw [if_neg hid, if_neg hid, if_neg hid]
        unfold consolidationUpd
        rw [if_neg hid]
    · rw [if_neg heph]
      dsimp only
      simp only [List.map_map]
      apply List.map_congr_left
      intro r hr
      simp only [Function.comp_apply]
      by_cases hid : (r.id == survivor.id) = true
      · have hide : r.id = survivor.id := by simpa using hid
        have hcont : (others.map (fun e => e.id)).contains r.id = false := by
          rw [hide]
          simpa using hsid
        rw [if_pos hid]
        rw [if_pos (show ((({ r with
          tags := jsJoinTags (unionTags (jsSplitTags r.tags)
            (((s.rows.filter (fun r =>
              (others.map (fun e => e.id)).contains r.id)).map
              (fun r => jsSplitTags r.tags)).flatten)) } : Row).id == survivor.id) = true)
          from hid)]
        rw [if_neg (show ¬ (ContextIndex.archiveHit (others.map (fun e => e.id))
          ({ r with
            tags := jsJoinTags (unionTags (jsSplitTags r.tags)
              (((s.rows.filter (fun r =>
                (others.map (fun e => e.id)).contains r.id)).map
                (fun r => jsSplitTags r.tags)).flatten)),
            content := survivor.content ++ "\n[Consolidated from " ++
              toString eligible.length ++ " entries]" } : Row) = true) from by
          unfold ContextIndex.archiveHit
          dsimp only
          rw [hcont]
          simp)]
        unfold consolidationUpd
        rw [if_pos hid]
        have heph' : (survivor.tier == some "ephemeral") = false := by
          simpa using heph
        rw [heph']
        rfl
      · rw [if_neg hid, if_neg hid]
        unfold consolidationUpd
        rw [if_neg hid]
  · -- survivor has maximal access count
    haveI : IsTotal ContextEntry acGe :=
      ⟨fun a b => le_total (b.accessCount.getD 0) (a.accessCount.getD 0)⟩
    haveI : IsTrans ContextEntry acGe :=
      ⟨fun a b c hab hbc => le_trans hbc hab⟩
    have hsorted := List.sorted_insertionSort acGe eligible
    rw [hsort] at hsorted
    intro y hy
    have hy' : y ∈ survivor :: others := by
      rw [← hsort]
      exact hperm.mem_iff.mpr hy
    rcases List.mem_cons.mp hy' with rfl | hmem
    · exact le_refl _
    · exact (List.pairwise_cons.mp hsorted).1 y hmem
  · -- ties go to the most recent (date, time)
    obtain ⟨l₁, l₂, hsplit, hfirst⟩ :=
      insertionSort_first_occurrence acGe eligible survivor others hsort
    intro y hy hac
    by_cases hys : y = survivor
    · exact Or.inl hys
    · right
      have hy2 : y ∈ l₁ ++ survivor :: l₂ := by
        rw [← hsplit]
        exact hy
      rcases List.mem_append.mp hy2 with h1 | h2
      · exact absurd (show acGe y survivor from by unfold acGe; omega) (hfirst y h1)
      · rcases List.mem_cons.mp h2 with h3 | h4
        · exact absurd h3 hys
        · have hpw2 : (l₁ ++ survivor :: l₂).Pairwise dtDescPair := by
            rw [← hsplit]
            exact hpw
          have hcons := (List.pairwise_append.mp hpw2).2.1
          exact (List.pairwise_cons.mp hcons).1 y h4

end Synaptic

namespace Synaptic

/-- Environment for the consolidation runs: today 2026-02-20, cluster
dates resolving to epoch 0, `Date.now()` four days later. -/
def envC6 : DbEnv where
  fts := fun _ => []
  cutoff := fun n => if n = 30 then "2026-01-21" else "1970-01-01"
  today := "2026-02-20"
  todayMs := 345600000
  dateMs := fun _ => 0

/-- Cluster member 1 (the survivor: access count 5). -/
def exClusterE1 : ContextEntry :=
  { id := "i1", date := "2026-02-16", time := "12:00", type := "issue",
    tags := [], content := "websocket leak", sourceFile := "f",
    tier := some "working", accessCount := some 5 }

/-- Cluster member 2 (pinned, access count 2). -/
def exClusterE2 : ContextEntry :=
  { id := "i2", date := "2026-02-16", time := "11:00", type := "issue",
    tags := [], content := "websocket leak again", sourceFile := "f",
    tier := some "working", accessCount := some 2, pinned := true }

/-- Cluster member 3 (access count 0). -/
def exClusterE3 : ContextEntry :=
  { id := "i3", date := "2026-02-16", time := "10:00", type := "issue",
    tags := [], content := "websocket leaking", sourceFile := "f",
    tier := some "working", accessCount := some 0 }

/-- The row of one cluster member. -/
def clusterRow (rid : Int) (e : ContextEntry) : Row :=
  { rowid := rid, id := e.id, date := e.date, time := e.time,
    type := e.type, tags := "", content := e.content, sourceFile := "f",
    tier := "working", accessCount := e.accessCount.getD 0,
    lastAccessed := none, pinned := e.pinned, archived := false,
    label := none, project := none, sessionId := none, agentId := none }

/-- Store with the three similar issue rows (identical embeddings). -/
def storeC6 : Store :=
  { rows := [clusterRow 1 exClusterE1, clusterRow 2 exClusterE2,
             clusterRow 3 exClusterE3],
    vecs := [(1, [1]), (2, [1]), (3, [1])] }

/-- The group the clustering step finds on `storeC6`. -/
def groupC6 : Group :=
  { label := "websocket leak",
    entries := [exClusterE1, exClusterE2, exClusterE3] }

/-- C6 amended, instantiated at the concrete cluster: access counts
5/2/0, with the access-2 member pinned. -/
theorem C6_consolidation_amended_witness :
    (consolidateGroup envC6 storeC6 groupC6).2 = 1 ∧
    (consolidateGroup envC6 storeC6 groupC6).1.rows = storeC6.rows.map
      (consolidationUpd exClusterE1.id (exClusterE1.tier == some "ephemeral")
        (exClusterE1.content ++ "\n[Consolidated from " ++
          toString [exClusterE1, exClusterE2, exClusterE3].length ++ " entries]")
        (((storeC6.rows.filter (fun r =>
            ([exClusterE2, exClusterE3].map (fun e => e.id)).contains r.id)).map
          (fun r => jsSplitTags r.tags)).flatten)
        ([exClusterE2, exClusterE3].map (fun e => e.id))) ∧
    (∀ y ∈ [exClusterE1, exClusterE2, exClusterE3],
      y.accessCount.getD 0 ≤ exClusterE1.accessCount.getD 0) ∧
    (∀ y ∈ [exClusterE1, exClusterE2, exClusterE3],
      y.accessCount.getD 0 = exClusterE1.accessCount.getD 0 →
      y = exClusterE1 ∨ dtDescPair exClusterE1 y) :=
  C6_consolidation_amended envC6 storeC6 groupC6
    [exClusterE1, exClusterE2, exClusterE3] exClusterE1
    [exClusterE2, exClusterE3]
    (by decide) (by decide) (by decide) (by decide) (by decide) (by decide)

end Synaptic

namespace Synaptic

/-- Cosine similarity of the shared embedding with itself is 1. -/
theorem cosineSimilarity_ones : cosineSimilarity [1] [1] = 1 := by
  unfold cosineSimilarity dotList
  simp

theorem cos_threshold_ok : (3 / 4 : ℝ) ≤ cosineSimilarity [1] [1] := by
  rw [cosineSimilarity_ones]
  norm_num

/-- One step of the inner cluster scan on `storeC6`'s embeddings. -/
theorem clusterScan_storeC6_step (used : List String) (d : ContextEntry)
    (rest : List ContextEntry)
    (hc : used.contains d.id = false)
    (hg : ContextIndex.getEmbedding storeC6 d.id = some [1]) :
    clusterScan (ContextIndex.getEmbedding storeC6) [1] (3 / 4) used (d :: rest)
      = d :: clusterScan (ContextIndex.getEmbedding storeC6) [1] (3 / 4) used rest := by
  simp only [clusterScan]
  rw [hc]
  rw [if_neg (by simp)]
  rw [hg]
  dsimp only
  rw [if_pos cos_threshold_ok]

/-- The clustering step on `storeC6` finds exactly the one group. -/
theorem findConsolidationCandidates_storeC6 :
    findConsolidationCandidates envC6 storeC6 (3 / 4) = [groupC6] := by
  unfold findConsolidationCandidates
  dsimp only
  have hlist : (ContextIndex.list envC6 storeC6 { days := some 30 }).filter
      (fun e => e.type == "issue" || e.type == "decision")
      = [exClusterE1, exClusterE2, exClusterE3] := by decide
  rw [hlist]
  rw [if_neg (by decide)]
  have hscan : clusterScan (ContextIndex.getEmbedding storeC6) [1] (3 / 4)
      [] [exClusterE2, exClusterE3] = [exClusterE2, exClusterE3] := by
    rw [clusterScan_storeC6_step [] exClusterE2 [exClusterE3] (by decide) rfl]
    rw [clusterScan_storeC6_step [] exClusterE3 [] (by decide) rfl]
    simp only [clusterScan]
  simp only [buildClusters]
  rw [show ([] : List String).contains exClusterE1.id = false from rfl]
  rw [if_neg (by simp)]
  rw [show ContextIndex.getEmbedding storeC6 exClusterE1.id = some [1] from rfl]
  dsimp only
  rw [hscan]
  rw [if_pos (by decide : 3 ≤ ([exClusterE1, exClusterE2, exClusterE3] : List ContextEntry).length)]
  rw [if_pos (by decide : (([] : List String) ++
    ([exClusterE1, exClusterE2, exClusterE3].map (fun e => e.id))).contains
      exClusterE2.id = true)]
  rw [if_pos (by decide : (([] : List String) ++
    ([exClusterE1, exClusterE2, exClusterE3].map (fun e => e.id))).contains
      exClusterE3.id = true)]
  set_option maxRecDepth 8192 in decide

/-- C6 counterexample: running maintenance consolidation on a cluster of 3
similar issues older than 3 days, where the non-survivor with access
count 2 is pinned: the other unpinned member is archived, the count is 1,
but the pinned member is NOT archived — the claim's "all other cluster
entries are archived" fails (`archiveEntries` skips pinned rows). -/
theorem C6_pinned_other_not_archived_counterexample :
    (consolidate envC6 storeC6).2 = 1 ∧
    ((consolidate envC6 storeC6).1.rows.filter (fun r => r.id == "i3")).map
      (fun r => r.archived) = [true] ∧
    ((consolidate envC6 storeC6).1.rows.filter (fun r => r.id == "i2")).map
      (fun r => (r.pinned, r.archived)) = [(true, false)] := by
  unfold consolidate
  rw [findConsolidationCandidates_storeC6]
  simp only [consolidateLoop]
  refine ⟨by decide, by decide, by decide⟩

end Synaptic
